import Mathlib

/-!
# Verification of the CINoptic Fulldome Player projection-and-camera core

A shallow embedding, over the real numbers, of the projection geometry,
camera pose, gesture zoom and orientation fusion logic implemented in
`src/components/Scene.tsx` (together with the pieces of the three.js math
library that the component calls into: `Vector3.normalize`,
`Quaternion.multiply`, `Quaternion.setFromEuler` with order `YXZ`,
`Quaternion.slerp`, `Quaternion.normalize`, `Matrix4.lookAt`,
`MathUtils.clamp`, `MathUtils.degToRad`, `SphereGeometry` vertex
positions).  JavaScript numbers are modelled as real numbers; the one
floating-point constant that appears in a branch condition
(`Number.EPSILON = 2⁻⁵²`) is kept as the exact rational it denotes.
-/

namespace Fulldome

noncomputable section

open Real

/-- `THREE.MathUtils.clamp(value, min, max) = Math.max(min, Math.min(max, value))`. -/
def clamp (value lo hi : ℝ) : ℝ := max lo (min hi value)

/-- `THREE.MathUtils.degToRad(degrees) = degrees * (Math.PI / 180)`. -/
def degToRad (d : ℝ) : ℝ := d * (Real.pi / 180)

/-- JavaScript `Math.atan2(y, x)`, modelled as the argument of the complex
number `x + y·i` (both have range `(-π, π]` on nonzero input and return `0`
at the origin). -/
def atan2 (y x : ℝ) : ℝ := Complex.arg ⟨x, y⟩

/-- `Number.EPSILON = 2⁻⁵²`, the constant used by `THREE.Quaternion.slerp`
to decide when to fall back to normalized linear interpolation. -/
def numberEpsilon : ℝ := 1 / 2 ^ 52

/-- A three-component vector, as `THREE.Vector3`. -/
structure Vec3 where
  x : ℝ
  y : ℝ
  z : ℝ

namespace Vec3

/-- Squared length `x*x + y*y + z*z`. -/
def lengthSq (v : Vec3) : ℝ := v.x * v.x + v.y * v.y + v.z * v.z

/-- `THREE.Vector3.length`. -/
def length (v : Vec3) : ℝ := Real.sqrt v.lengthSq

/-- Scalar multiple. -/
def smul (c : ℝ) (v : Vec3) : Vec3 := ⟨c * v.x, c * v.y, c * v.z⟩

/-- Componentwise difference, `THREE.Vector3.subVectors`. -/
def sub (a b : Vec3) : Vec3 := ⟨a.x - b.x, a.y - b.y, a.z - b.z⟩

/-- `THREE.Vector3.crossVectors`. -/
def cross (a b : Vec3) : Vec3 :=
  ⟨a.y * b.z - a.z * b.y, a.z * b.x - a.x * b.z, a.x * b.y - a.y * b.x⟩

/-- `THREE.Vector3.normalize`: divides by `length || 1`, so the zero vector
is left unchanged. -/
def normalize (v : Vec3) : Vec3 :=
  if v.length = 0 then v else smul (1 / v.length) v

end Vec3

/-- A quaternion with three.js component layout `(x, y, z, w)`. -/
structure Quat where
  x : ℝ
  y : ℝ
  z : ℝ
  w : ℝ

namespace Quat

/-- Hamilton product, exactly as `THREE.Quaternion.multiplyQuaternions(a, b)`. -/
def mul (a b : Quat) : Quat :=
  ⟨a.x * b.w + a.w * b.x + a.y * b.z - a.z * b.y,
   a.y * b.w + a.w * b.y + a.z * b.x - a.x * b.z,
   a.z * b.w + a.w * b.z + a.x * b.y - a.y * b.x,
   a.w * b.w - a.x * b.x - a.y * b.y - a.z * b.z⟩

/-- `THREE.Quaternion.dot`. -/
def dot (a b : Quat) : ℝ := a.x * b.x + a.y * b.y + a.z * b.z + a.w * b.w

/-- Squared norm. -/
def normSq (q : Quat) : ℝ := q.x * q.x + q.y * q.y + q.z * q.z + q.w * q.w

/-- `THREE.Quaternion.length`. -/
def length (q : Quat) : ℝ := Real.sqrt q.normSq

/-- Componentwise negation (used by `slerp` when the dot product is negative). -/
def neg (q : Quat) : Quat := ⟨-q.x, -q.y, -q.z, -q.w⟩

/-- Scalar multiple of all four components. -/
def smul (c : ℝ) (q : Quat) : Quat := ⟨c * q.x, c * q.y, c * q.z, c * q.w⟩

/-- `THREE.Quaternion.normalize`: a zero-length quaternion becomes the
identity `(0,0,0,1)`, otherwise every component is divided by the length. -/
def normalizeQ (q : Quat) : Quat :=
  if q.length = 0 then ⟨0, 0, 0, 1⟩ else smul (1 / q.length) q

end Quat

/-- `THREE.Quaternion.setFromEuler` for rotation order `'YXZ'` on Euler
angles `(ex, ey, ez)`:
`x = s1*c2*c3 + c1*s2*s3`, `y = c1*s2*c3 - s1*c2*s3`,
`z = c1*c2*s3 - s1*s2*c3`, `w = c1*c2*c3 + s1*s2*s3`
where `c1 = cos(ex/2)`, `s1 = sin(ex/2)`, `c2 = cos(ey/2)`, `s2 = sin(ey/2)`,
`c3 = cos(ez/2)`, `s3 = sin(ez/2)`. -/
def quatFromEulerYXZ (ex ey ez : ℝ) : Quat :=
  let c1 := Real.cos (ex / 2)
  let c2 := Real.cos (ey / 2)
  let c3 := Real.cos (ez / 2)
  let s1 := Real.sin (ex / 2)
  let s2 := Real.sin (ey / 2)
  let s3 := Real.sin (ez / 2)
  ⟨s1 * c2 * c3 + c1 * s2 * s3,
   c1 * s2 * c3 - s1 * c2 * s3,
   c1 * c2 * s3 - s1 * s2 * c3,
   c1 * c2 * c3 + s1 * s2 * s3⟩

/-- `THREE.Quaternion.setFromAxisAngle` for the lateral axis `(1,0,0)`. -/
def qRotX (t : ℝ) : Quat := ⟨Real.sin (t / 2), 0, 0, Real.cos (t / 2)⟩

/-- `THREE.Quaternion.setFromAxisAngle` for the vertical axis `(0,1,0)`. -/
def qRotY (t : ℝ) : Quat := ⟨0, Real.sin (t / 2), 0, Real.cos (t / 2)⟩

/-- `THREE.Quaternion.setFromAxisAngle` for the depth axis `(0,0,1)`. -/
def qRotZ (t : ℝ) : Quat := ⟨0, 0, Real.sin (t / 2), Real.cos (t / 2)⟩

/-!
## Dome projection geometry (`DomeProjection`, Scene.tsx lines 49–104)

The mesh is `<Sphere args={[100, 128, 128, 0, 2π, 0, π/2]}>`, i.e.
`THREE.SphereGeometry` with radius 100, 128 width and height segments,
`phiStart = 0`, `phiLength = 2π`, `thetaStart = 0`, `thetaLength = π/2`.
Three.js generates the vertex of grid index `(iy, ix)` at
`u = ix / widthSegments`, `v = iy / heightSegments`,
`x = -radius·cos(phiStart + u·phiLength)·sin(thetaStart + v·thetaLength)`,
`y =  radius·cos(thetaStart + v·thetaLength)`,
`z =  radius·sin(phiStart + u·phiLength)·sin(thetaStart + v·thetaLength)`.
-/

/-- Position of the dome vertex with grid indices `(iy, ix)`,
`0 ≤ iy ≤ 128`, `0 ≤ ix ≤ 128` (polar rings from zenith to horizon), with
polar angle `(iy/128)·(π/2)` and azimuth `(ix/128)·(2π)`. -/
def domeVertexPos (iy ix : ℕ) : Vec3 :=
  ⟨-100 * Real.cos (((ix : ℝ) / 128) * (2 * Real.pi)) *
      Real.sin (((iy : ℝ) / 128) * (Real.pi / 2)),
   100 * Real.cos (((iy : ℝ) / 128) * (Real.pi / 2)),
   100 * Real.sin (((ix : ℝ) / 128) * (2 * Real.pi)) *
      Real.sin (((iy : ℝ) / 128) * (Real.pi / 2))⟩

/-- The per-vertex UV computation of `DomeProjection`'s layout effect
(Scene.tsx lines 58–75): normalize the position to `v`, take
`theta = acos(v.y)`, `phi = atan2(v.z, v.x)`, `r = theta / π`, and cache
`(0.5 + r·cos(phi), 0.5 + r·sin(phi))`. -/
def domeUV (pos : Vec3) : ℝ × ℝ :=
  (0.5 + (Real.arccos pos.normalize.y / Real.pi) * Real.cos (atan2 pos.normalize.z pos.normalize.x),
   0.5 + (Real.arccos pos.normalize.y / Real.pi) * Real.sin (atan2 pos.normalize.z pos.normalize.x))

/-!
## Gesture zoom controller (Scene.tsx lines 246–298)

The zoom effect installs `wheel`, `touchstart` and `touchmove` listeners on
the canvas; it installs **no** `touchend` or `touchcancel` listener.  The
mutable closure state is `startDist` (initially `0`) and `startFov`
(initially `75`); the camera's field of view is the third piece of state.
-/

/-- One touch contact point (`Touch.clientX`, `Touch.clientY`). -/
structure Touch where
  clientX : ℝ
  clientY : ℝ

/-- Euclidean pixel distance between two contacts, as computed inline in
`handleTouchStart` / `handleTouchMove`:
`dx = t0.clientX - t1.clientX`, `dy = t0.clientY - t1.clientY`,
`Math.sqrt(dx*dx + dy*dy)`. -/
def touchDist (t0 t1 : Touch) : ℝ :=
  Real.sqrt ((t0.clientX - t1.clientX) * (t0.clientX - t1.clientX) +
    (t0.clientY - t1.clientY) * (t0.clientY - t1.clientY))

/-- State of the zoom effect: the camera's field of view plus the closure
variables `startDist` and `startFov`. -/
structure ZoomState where
  fov : ℝ
  startDist : ℝ
  startFov : ℝ

/-- Input events reaching the canvas.  `touchEnd` is listed because the
platform delivers it, even though the effect registers no handler for it. -/
inductive ZoomEvent where
  | wheel (deltaY : ℝ)
  | touchStart (touches : List Touch)
  | touchMove (touches : List Touch)
  | touchEnd (touches : List Touch)

/-- `handleWheel` (lines 249–258): `fov := clamp(fov + deltaY * 0.05, 30, 120)`. -/
def handleWheel (deltaY : ℝ) (s : ZoomState) : ZoomState :=
  { s with fov := clamp (s.fov + deltaY * 0.05) 30 120 }

/-- `handleTouchStart` (lines 263–272): with exactly two contacts, record
their distance as `startDist` and the current fov as `startFov`. -/
def handleTouchStart (touches : List Touch) (s : ZoomState) : ZoomState :=
  match touches with
  | [t0, t1] => { s with startDist := touchDist t0 t1, startFov := s.fov }
  | _ => s

/-- `handleTouchMove` (lines 274–287): with exactly two contacts and
`startDist > 0`, set `fov := clamp(startFov * (startDist / dist), 30, 120)`. -/
def handleTouchMove (touches : List Touch) (s : ZoomState) : ZoomState :=
  match touches with
  | [t0, t1] =>
      if s.startDist > 0 then
        { s with fov := clamp (s.startFov * (s.startDist / touchDist t0 t1)) 30 120 }
      else s
  | _ => s

/-- Dispatch of one input event to the registered listeners.  A `touchEnd`
event reaches no handler, so it leaves the state untouched. -/
def zoomStep (s : ZoomState) (e : ZoomEvent) : ZoomState :=
  match e with
  | .wheel d => handleWheel d s
  | .touchStart ts => handleTouchStart ts s
  | .touchMove ts => handleTouchMove ts s
  | .touchEnd _ => s

/-- Processing a finite sequence of input events. -/
def runZoom (s : ZoomState) (evs : List ZoomEvent) : ZoomState :=
  evs.foldl zoomStep s

/-- The pinch-zoom handler performs its division `startDist / dist` with a
zero divisor: a two-contact touch-move passes the `startDist > 0` guard
while the current contact distance is `0`. -/
def pinchDivisionByZero (s : ZoomState) (touches : List Touch) : Prop :=
  match touches with
  | [t0, t1] => s.startDist > 0 ∧ touchDist t0 t1 = 0
  | _ => False

/-!
## Camera pose, reset and mode change (Scene.tsx lines 125–145 and 225–243)
-/

/-- The abstract state of the drei `OrbitControls` collaborator: its
internally accumulated rotation offset.  `controls.reset()` restores the
saved initial state, i.e. discards the accumulated offset. -/
structure OrbitState where
  accumulated : Quat

/-- The orbit controls' pristine state. -/
def orbitDefault : OrbitState := ⟨⟨0, 0, 0, 1⟩⟩

/-- `THREE.Matrix4.lookAt(eye, target, up)`: builds the orthonormal basis
`(bx, by, bz)` of a rotation whose `-z` axis points from `eye` to `target`. -/
def lookAtBasis (eye target up : Vec3) : Vec3 × Vec3 × Vec3 :=
  let z0 := Vec3.sub eye target
  let z1 := if z0.lengthSq = 0 then { z0 with z := 1 } else z0
  let z2 := z1.normalize
  let x0 := Vec3.cross up z2
  let degenerate := x0.lengthSq = 0
  let z3 := if degenerate then
      (if |up.z| = 1 then { z2 with x := z2.x + 0.0001 }
       else { z2 with z := z2.z + 0.0001 }).normalize
    else z2
  let x1 := if degenerate then Vec3.cross up z3 else x0
  let bX := x1.normalize
  let bY := Vec3.cross z3 bX
  (bX, bY, z3)

/-- `THREE.Quaternion.setFromRotationMatrix` on the rotation whose columns
are `(colX, colY, colZ)` (the upper-left 3×3 of the `Matrix4`). -/
def quatFromBasis (colX colY colZ : Vec3) : Quat :=
  let m11 := colX.x
  let m12 := colY.x
  let m13 := colZ.x
  let m21 := colX.y
  let m22 := colY.y
  let m23 := colZ.y
  let m31 := colX.z
  let m32 := colY.z
  let m33 := colZ.z
  let trace := m11 + m22 + m33
  if 0 < trace then
    let s := 0.5 / Real.sqrt (trace + 1)
    ⟨(m32 - m23) * s, (m13 - m31) * s, (m21 - m12) * s, 0.25 / s⟩
  else if m22 < m11 ∧ m33 < m11 then
    let s := 2 * Real.sqrt (1 + m11 - m22 - m33)
    ⟨0.25 * s, (m12 + m21) / s, (m13 + m31) / s, (m32 - m23) / s⟩
  else if m33 < m22 then
    let s := 2 * Real.sqrt (1 + m22 - m11 - m33)
    ⟨(m12 + m21) / s, 0.25 * s, (m23 + m32) / s, (m13 - m31) / s⟩
  else
    let s := 2 * Real.sqrt (1 + m33 - m11 - m22)
    ⟨(m13 + m31) / s, (m23 + m32) / s, 0.25 * s, (m21 - m12) / s⟩

/-- `Object3D.lookAt` as used by a camera: the orientation quaternion of the
rotation looking from `eye` toward `target` with up vector `up`. -/
def lookAtQuat (eye target up : Vec3) : Quat :=
  let b := lookAtBasis eye target up
  quatFromBasis b.1 b.2.1 b.2.2

/-- The full camera pose together with the orbit-controls collaborator state. -/
structure CameraState where
  pos : Vec3
  up : Vec3
  quat : Quat
  fov : ℝ
  orbit : OrbitState

/-- The body of the reset effect (lines 226–242): fov to 75, position to
`(0, -0.07, 0.07)`, up to `(0, 1, 0)`, `lookAt(0, 0, 0)`, and
`controls.reset()`. -/
def applyReset (s : CameraState) : CameraState :=
  let pos : Vec3 := ⟨0, -0.07, 0.07⟩
  let up : Vec3 := ⟨0, 1, 0⟩
  { s with
    fov := 75
    pos := pos
    up := up
    quat := lookAtQuat pos ⟨0, 0, 0⟩ up
    orbit := orbitDefault }

/-- The reset effect has dependency array `[resetTrigger, camera]`: its body
runs again exactly when the trigger value changes, and the body acts only
when `resetTrigger > 0`. -/
def processResetTrigger (s : CameraState) (oldTrigger newTrigger : ℕ) : CameraState :=
  if newTrigger ≠ oldTrigger then
    (if 0 < newTrigger then applyReset s else s)
  else s

/-- The projection modes of the player. -/
inductive ProjectionMode where
  | dome
  | flat
deriving DecidableEq

/-- `CameraController`'s first effect (lines 128–133) has dependency array
`[mode, camera]`: when the projection mode changes it sets `fov := 75` and
touches nothing else. -/
def processModeChange (s : CameraState) (oldMode newMode : ProjectionMode) : CameraState :=
  if newMode ≠ oldMode then { s with fov := 75 } else s

/-!
## Orientation fusion (`OrientationHandler`, Scene.tsx lines 147–182)
-/

/-- A `DeviceOrientationEvent` payload; each angle may be `null`. -/
structure OrientationSample where
  alpha : Option ℝ
  beta : Option ℝ
  gamma : Option ℝ

/-- `handleOrientation` (lines 155–168): samples with any missing angle are
discarded; otherwise the angles are converted to radians, an Euler
`(beta, alpha, -gamma)` with order `'YXZ'` is turned into a quaternion, and
the result is multiplied by `q1 = (-√0.5, 0, 0, √0.5)`. -/
def handleOrientation (e : OrientationSample) : Option Quat :=
  match e.alpha, e.beta, e.gamma with
  | some a, some b, some g =>
      let alpha := degToRad a
      let beta := degToRad b
      let gamma := degToRad g
      let q1 : Quat := ⟨-Real.sqrt 0.5, 0, 0, Real.sqrt 0.5⟩
      some (Quat.mul (quatFromEulerYXZ beta alpha (-gamma)) q1)
  | _, _, _ => none

/-- `THREE.Quaternion.slerp(qb, t)` performed on `qa`, faithful to the
three.js source including the sign flip, the `cosHalfTheta >= 1` early
return and the `Number.EPSILON` linear-interpolation fallback. -/
def slerpQ (qa qb : Quat) (t : ℝ) : Quat :=
  if t = 0 then qa
  else if t = 1 then qb
  else
    let cosHalfTheta0 := qa.w * qb.w + qa.x * qb.x + qa.y * qb.y + qa.z * qb.z
    let qb' := if cosHalfTheta0 < 0 then qb.neg else qb
    let cosHalfTheta := if cosHalfTheta0 < 0 then -cosHalfTheta0 else cosHalfTheta0
    if 1 ≤ cosHalfTheta then qa
    else
      let sqrSinHalfTheta := 1 - cosHalfTheta * cosHalfTheta
      if sqrSinHalfTheta ≤ numberEpsilon then
        Quat.normalizeQ ⟨(1 - t) * qa.x + t * qb'.x, (1 - t) * qa.y + t * qb'.y,
          (1 - t) * qa.z + t * qb'.z, (1 - t) * qa.w + t * qb'.w⟩
      else
        let sinHalfTheta := Real.sqrt sqrSinHalfTheta
        let halfTheta := atan2 sinHalfTheta cosHalfTheta
        let ratioA := Real.sin ((1 - t) * halfTheta) / sinHalfTheta
        let ratioB := Real.sin (t * halfTheta) / sinHalfTheta
        ⟨qa.x * ratioA + qb'.x * ratioB, qa.y * ratioA + qb'.y * ratioB,
         qa.z * ratioA + qb'.z * ratioB, qa.w * ratioA + qb'.w * ratioB⟩

/-- The angular distance between two orientations on the unit-quaternion
sphere (half the rotation angle between them): `arccos |⟨q, p⟩|`. -/
def angDist (q p : Quat) : ℝ := Real.arccos |Quat.dot q p|

/-- Iterating the per-frame smoothing step of `useFrame` (line 176):
`current := slerp(current, target, 0.1)`. -/
def slerpIter (qt q0 : Quat) : ℕ → Quat
  | 0 => q0
  | n + 1 => slerpQ (slerpIter qt q0 n) qt 0.1

/-- The mutable state touched by `OrientationHandler` and `OrbitControls`:
the handler's two refs and the camera's orientation. -/
structure MotionState where
  target : Quat
  current : Quat
  cameraQuat : Quat

/-- The events that can write camera orientation: an asynchronous device
orientation sample, a render-loop frame, and a manual orbit drag whose
net effect would set the camera orientation to `q`. -/
inductive MotionEvent where
  | sample (e : OrientationSample)
  | frame
  | orbitDrag (q : Quat)

/-- One event step of the orientation/orbit system under the externally
supplied `isMotionEnabled` flag.  The `deviceorientation` listener is
attached only when `enabled` (the effect at lines 152–172 returns early and
detaches otherwise); the `useFrame` body (lines 174–179) writes only when
`enabled`; `OrbitControls` receives `enabled={!isMotionEnabled}` (line 311)
and its drag handlers return immediately when disabled. -/
def motionStep (enabled : Bool) (s : MotionState) : MotionEvent → MotionState
  | .sample e =>
      if enabled then
        match handleOrientation e with
        | some q => { s with target := q }
        | none => s
      else s
  | .frame =>
      if enabled then
        let c := slerpQ s.current s.target 0.1
        { s with current := c, cameraQuat := c }
      else s
  | .orbitDrag q =>
      if enabled then s else { s with cameraQuat := q }

/-- Processing a finite sequence of motion events. -/
def runMotion (enabled : Bool) (s : MotionState) (evs : List MotionEvent) : MotionState :=
  evs.foldl (motionStep enabled) s

/-- Classifies the events originating from the orientation-fusion input
path (sensor samples and the smoothing step of the render loop). -/
def isOrientationEvent : MotionEvent → Prop
  | .sample _ => True
  | .frame => True
  | .orbitDrag _ => False

/-!
## Helper lemmas
-/

/-- `clamp` really lands in the interval when the bounds are ordered. -/
lemma clamp_mem (x lo hi : ℝ) (h : lo ≤ hi) : lo ≤ clamp x lo hi ∧ clamp x lo hi ≤ hi :=
  ⟨le_max_left _ _, max_le h (min_le_left _ _)⟩

/-- Reduction of `handleTouchStart` at a two-contact event. -/
lemma handleTouchStart_two (t0 t1 : Touch) (s : ZoomState) :
    handleTouchStart [t0, t1] s =
      { s with startDist := touchDist t0 t1, startFov := s.fov } := rfl

/-- Reduction of `handleTouchMove` at a two-contact event. -/
lemma handleTouchMove_two (t0 t1 : Touch) (s : ZoomState) :
    handleTouchMove [t0, t1] s =
      if s.startDist > 0 then
        { s with fov := clamp (s.startFov * (s.startDist / touchDist t0 t1)) 30 120 }
      else s := rfl

/-- Every zoom event either leaves the field of view unchanged or writes a
clamped value. -/
lemma zoomStep_fov_cases (s : ZoomState) (e : ZoomEvent) :
    (zoomStep s e).fov = s.fov ∨ ∃ x, (zoomStep s e).fov = clamp x 30 120 := by
  cases e with
  | wheel d => exact Or.inr ⟨_, rfl⟩
  | touchStart ts =>
      left
      show (handleTouchStart ts s).fov = s.fov
      unfold handleTouchStart
      split <;> rfl
  | touchMove ts =>
      show (handleTouchMove ts s).fov = s.fov ∨
        ∃ x, (handleTouchMove ts s).fov = clamp x 30 120
      unfold handleTouchMove
      split
      · split
        · exact Or.inr ⟨_, rfl⟩
        · exact Or.inl rfl
      · exact Or.inl rfl
  | touchEnd ts => exact Or.inl rfl

/-- Contact distance vanishes exactly when the two contacts coincide. -/
lemma touchDist_eq_zero_iff (t0 t1 : Touch) : touchDist t0 t1 = 0 ↔ t0 = t1 := by
  unfold touchDist
  rw [Real.sqrt_eq_zero (add_nonneg (mul_self_nonneg _) (mul_self_nonneg _))]
  constructor
  · intro h
    have h1 : t0.clientX - t1.clientX = 0 := by
      nlinarith [sq_nonneg (t0.clientX - t1.clientX), sq_nonneg (t0.clientY - t1.clientY)]
    have h2 : t0.clientY - t1.clientY = 0 := by
      nlinarith [sq_nonneg (t0.clientX - t1.clientX), sq_nonneg (t0.clientY - t1.clientY)]
    cases t0
    cases t1
    simp only [Touch.mk.injEq]
    constructor <;> [linarith [h1]; linarith [h2]]
  · rintro rfl
    ring

/-- Concrete contact distance used by several witnesses:
`(0,0)` to `(30,40)` is 50 pixels. -/
lemma touchDist_fifty : touchDist ⟨0, 0⟩ ⟨30, 40⟩ = 50 := by
  unfold touchDist
  rw [show ((0:ℝ) - 30) * ((0:ℝ) - 30) + ((0:ℝ) - 40) * ((0:ℝ) - 40) = 50 ^ 2 by norm_num,
    Real.sqrt_sq (by norm_num)]

/-- Concrete contact distance: `(0,0)` to `(0,100)` is 100 pixels. -/
lemma touchDist_hundred : touchDist ⟨0, 0⟩ ⟨0, 100⟩ = 100 := by
  unfold touchDist
  rw [show ((0:ℝ) - 0) * ((0:ℝ) - 0) + ((0:ℝ) - 100) * ((0:ℝ) - 100) = 100 ^ 2 by norm_num,
    Real.sqrt_sq (by norm_num)]

/-- The dome vertex positions all have squared length `100² = 10000`. -/
lemma domeVertexPos_lengthSq (iy ix : ℕ) :
    (domeVertexPos iy ix).lengthSq = 10000 := by
  have ha := Real.sin_sq_add_cos_sq (((ix : ℝ) / 128) * (2 * Real.pi))
  have hp := Real.sin_sq_add_cos_sq (((iy : ℝ) / 128) * (Real.pi / 2))
  unfold domeVertexPos Vec3.lengthSq
  nlinarith [ha, hp]

/-- Normalizing a dome vertex yields the unit direction
`(-cos(azim)·sin(polar), cos(polar), sin(azim)·sin(polar))`. -/
lemma domeVertexPos_normalize (iy ix : ℕ) :
    (domeVertexPos iy ix).normalize =
      ⟨-(Real.cos (((ix : ℝ) / 128) * (2 * Real.pi)) *
          Real.sin (((iy : ℝ) / 128) * (Real.pi / 2))),
        Real.cos (((iy : ℝ) / 128) * (Real.pi / 2)),
        Real.sin (((ix : ℝ) / 128) * (2 * Real.pi)) *
          Real.sin (((iy : ℝ) / 128) * (Real.pi / 2))⟩ := by
  have hlen : (domeVertexPos iy ix).length = 100 := by
    unfold Vec3.length
    rw [domeVertexPos_lengthSq, show (10000 : ℝ) = 100 ^ 2 by norm_num,
      Real.sqrt_sq (by norm_num)]
  unfold Vec3.normalize
  rw [hlen, if_neg (by norm_num : (100 : ℝ) ≠ 0)]
  unfold domeVertexPos Vec3.smul
  simp only [Vec3.mk.injEq]
  refine ⟨by ring, by ring, by ring⟩

/-!
## C1 — dome texture coordinates
-/

/-- C1: for every vertex of the dome hemisphere (grid indices
`iy, ix ≤ 128`), with `v` the normalized position,
`theta = arccos(v.y)`, `phi = atan2(v.z, v.x)` and `r = theta/π`, the
cached texture coordinates equal `(0.5 + r·cos(phi), 0.5 + r·sin(phi))`;
`r` lies in `[0, 0.5]`; the pair lies in `[0,1] × [0,1]`; and every zenith
vertex (`theta = 0`, i.e. `iy = 0`) maps exactly to `(0.5, 0.5)`. -/
theorem dome_uv_spec (iy ix : ℕ) (hiy : iy ≤ 128) :
    domeUV (domeVertexPos iy ix) =
      (0.5 + (Real.arccos (domeVertexPos iy ix).normalize.y / Real.pi) *
          Real.cos (atan2 (domeVertexPos iy ix).normalize.z (domeVertexPos iy ix).normalize.x),
       0.5 + (Real.arccos (domeVertexPos iy ix).normalize.y / Real.pi) *
          Real.sin (atan2 (domeVertexPos iy ix).normalize.z (domeVertexPos iy ix).normalize.x)) ∧
    0 ≤ Real.arccos (domeVertexPos iy ix).normalize.y / Real.pi ∧
    Real.arccos (domeVertexPos iy ix).normalize.y / Real.pi ≤ 0.5 ∧
    0 ≤ (domeUV (domeVertexPos iy ix)).1 ∧ (domeUV (domeVertexPos iy ix)).1 ≤ 1 ∧
    0 ≤ (domeUV (domeVertexPos iy ix)).2 ∧ (domeUV (domeVertexPos iy ix)).2 ≤ 1 ∧
    (iy = 0 → Real.arccos (domeVertexPos iy ix).normalize.y = 0 ∧
      domeUV (domeVertexPos iy ix) = (0.5, 0.5)) := by
  have hpi := Real.pi_pos
  -- the polar angle of this vertex ring
  have hp0 : 0 ≤ ((iy : ℝ) / 128) * (Real.pi / 2) := by positivity
  have hple : ((iy : ℝ) / 128) * (Real.pi / 2) ≤ Real.pi / 2 := by
    have h1 : ((iy : ℝ) / 128) ≤ 1 := by
      rw [div_le_one (by norm_num)]
      exact_mod_cast hiy
    nlinarith [hpi]
  have hny : (domeVertexPos iy ix).normalize.y =
      Real.cos (((iy : ℝ) / 128) * (Real.pi / 2)) := by
    rw [domeVertexPos_normalize]
  have htheta : Real.arccos (domeVertexPos iy ix).normalize.y =
      ((iy : ℝ) / 128) * (Real.pi / 2) := by
    rw [hny, Real.arccos_cos hp0 (by linarith)]
  have hr0 : 0 ≤ Real.arccos (domeVertexPos iy ix).normalize.y / Real.pi := by
    have := Real.arccos_nonneg (domeVertexPos iy ix).normalize.y
    positivity
  have hrle : Real.arccos (domeVertexPos iy ix).normalize.y / Real.pi ≤ 0.5 := by
    rw [htheta, div_le_iff₀ hpi]
    nlinarith [hple, hpi]
  set r := Real.arccos (domeVertexPos iy ix).normalize.y / Real.pi with hrdef
  set phi := atan2 (domeVertexPos iy ix).normalize.z (domeVertexPos iy ix).normalize.x
    with hphidef
  have huv : domeUV (domeVertexPos iy ix) =
      (0.5 + r * Real.cos phi, 0.5 + r * Real.sin phi) := rfl
  have hcos1 := Real.neg_one_le_cos phi
  have hcos2 := Real.cos_le_one phi
  have hsin1 := Real.neg_one_le_sin phi
  have hsin2 := Real.sin_le_one phi
  refine ⟨huv, hr0, hrle, ?_, ?_, ?_, ?_, ?_⟩
  · rw [huv]; dsimp only; nlinarith
  · rw [huv]; dsimp only; nlinarith
  · rw [huv]; dsimp only; nlinarith
  · rw [huv]; dsimp only; nlinarith
  · intro h0
    have hth0 : Real.arccos (domeVertexPos iy ix).normalize.y = 0 := by
      rw [htheta, h0]
      norm_num
    refine ⟨hth0, ?_⟩
    rw [huv, hrdef, hth0]
    norm_num

/-- Witness for C1 at the zenith vertex `(iy, ix) = (0, 0)` and at an
interior vertex `(64, 32)`. -/
theorem dome_uv_spec_witness :
    (0 ≤ 128 ∧
      0 ≤ Real.arccos (domeVertexPos 0 0).normalize.y / Real.pi ∧
      (64 : ℕ) ≤ 128 ∧
      Real.arccos (domeVertexPos 64 32).normalize.y / Real.pi ≤ 0.5) :=
  ⟨by norm_num, ((dome_uv_spec 0 0 (by norm_num)).2).1, by norm_num,
    ((dome_uv_spec 64 32 (by norm_num)).2).2.1⟩

/-!
## C2 — field-of-view invariant
-/

/-- C2: for every starting field-of-view in [30, 120] and every finite
sequence of wheel events (arbitrary `deltaY`) and touch operations
(arbitrary contact positions, hence arbitrary start and current finger
distances), the field-of-view after the sequence is still in [30, 120]. -/
theorem fov_invariant (s : ZoomState) (evs : List ZoomEvent)
    (h30 : 30 ≤ s.fov) (h120 : s.fov ≤ 120) :
    30 ≤ (runZoom s evs).fov ∧ (runZoom s evs).fov ≤ 120 := by
  induction evs generalizing s with
  | nil => exact ⟨h30, h120⟩
  | cons e evs ih =>
      have hstep : 30 ≤ (zoomStep s e).fov ∧ (zoomStep s e).fov ≤ 120 := by
        rcases zoomStep_fov_cases s e with h | ⟨x, h⟩
        · rw [h]; exact ⟨h30, h120⟩
        · rw [h]; exact clamp_mem x 30 120 (by norm_num)
      exact ih (zoomStep s e) hstep.1 hstep.2

/-- Witness for C2 at a concrete run: starting fov 75, a huge wheel event,
a two-finger touch-start and a pinch move. -/
theorem fov_invariant_witness :
    (30 ≤ (75:ℝ) ∧ (75:ℝ) ≤ 120) ∧
    (30 ≤ (runZoom ⟨75, 0, 75⟩ [ZoomEvent.wheel 1000000,
        ZoomEvent.touchStart [⟨0, 0⟩, ⟨30, 40⟩],
        ZoomEvent.touchMove [⟨0, 0⟩, ⟨0, 100⟩]]).fov ∧
      (runZoom ⟨75, 0, 75⟩ [ZoomEvent.wheel 1000000,
        ZoomEvent.touchStart [⟨0, 0⟩, ⟨30, 40⟩],
        ZoomEvent.touchMove [⟨0, 0⟩, ⟨0, 100⟩]]).fov ≤ 120) :=
  ⟨⟨by norm_num, by norm_num⟩,
    fov_invariant ⟨75, 0, 75⟩ _ (by norm_num) (by norm_num)⟩

/-!
## C4 — pinch-zoom formula
-/

/-- C4: a two-finger touch-move with recorded `startDist > 0` sets
`fov = clamp(startFov * (startDist / dist), 30, 120)`; with `startDist` not
positive it leaves the field-of-view unchanged; and the concrete instance
`startFov = 75`, `startDist = 100`, `dist = 50` yields ratio 2 and
fov 120 (clamped from 150). -/
theorem pinch_zoom_formula (s : ZoomState) (t0 t1 : Touch) :
    (0 < s.startDist →
      (handleTouchMove [t0, t1] s).fov =
        clamp (s.startFov * (s.startDist / touchDist t0 t1)) 30 120) ∧
    (¬ 0 < s.startDist → (handleTouchMove [t0, t1] s).fov = s.fov) ∧
    (handleTouchMove [⟨0, 0⟩, ⟨30, 40⟩] ⟨75, 100, 75⟩).fov = 120 := by
  refine ⟨fun h => ?_, fun h => ?_, ?_⟩
  · rw [handleTouchMove_two, if_pos h]
  · rw [handleTouchMove_two, if_neg h]
  · rw [handleTouchMove_two, if_pos (by norm_num)]
    simp only [touchDist_fifty]
    unfold clamp
    norm_num

/-- Witness for C4 with `startDist = 100 > 0` and contacts 50 pixels apart. -/
theorem pinch_zoom_formula_witness :
    (0:ℝ) < 100 ∧
    (handleTouchMove [⟨0, 0⟩, ⟨30, 40⟩] ⟨90, 100, 75⟩).fov =
      clamp ((75:ℝ) * (100 / touchDist ⟨0, 0⟩ ⟨30, 40⟩)) 30 120 :=
  ⟨by norm_num, (pinch_zoom_formula ⟨90, 100, 75⟩ ⟨0, 0⟩ ⟨30, 40⟩).1 (by norm_num)⟩

/-!
## C10 — the pinch division guard

The claim states that the `startDist > 0` check prevents any division by
zero.  In the code, the guard tests the **recorded start** distance, not
the **current** divisor `dist`; a two-contact touch-move whose contacts
coincide makes `dist = 0` while `startDist > 0`, so the division
`startDist / dist` is performed with a zero divisor.
-/

/-- Counterexample to C10 as stated: with recorded `startDist = 100` and
both current contacts at `(5, 5)`, the guarded pinch division is reached
with divisor `dist = 0`. -/
theorem pinch_division_by_zero_occurs :
    pinchDivisionByZero ⟨75, 100, 75⟩ [⟨5, 5⟩, ⟨5, 5⟩] := by
  refine ⟨by norm_num, ?_⟩
  exact (touchDist_eq_zero_iff _ _).mpr rfl

/-- C10 amended: the pinch division runs with a zero divisor exactly when a
two-contact touch-move has coinciding contacts while `startDist > 0`; the
`startDist > 0` guard does not rule this out. -/
theorem pinch_division_by_zero_iff (s : ZoomState) (t0 t1 : Touch) :
    pinchDivisionByZero s [t0, t1] ↔ 0 < s.startDist ∧ t0 = t1 := by
  show s.startDist > 0 ∧ touchDist t0 t1 = 0 ↔ _
  rw [touchDist_eq_zero_iff]

/-- Witness instantiating the amended C10 characterization. -/
theorem pinch_division_by_zero_iff_witness :
    pinchDivisionByZero ⟨75, 3, 75⟩ [⟨1, 2⟩, ⟨1, 2⟩] :=
  (pinch_division_by_zero_iff ⟨75, 3, 75⟩ ⟨1, 2⟩ ⟨1, 2⟩).mpr ⟨by norm_num, rfl⟩

/-!
## C8 — gesture state is never discarded

The zoom effect registers no `touchend`/`touchcancel` handler, so the
recorded `(startDist, startFov)` pair survives the end of a two-finger
sequence.  It is only ever *overwritten* by a later touch-start with
exactly two contacts.  A trace in which two contacts reappear without a
two-contact touch-start (three fingers placed at once, then one lifted)
applies a ratio based on the stale start distance.
-/

/-- Counterexample to C8 as stated: after the contact count drops to one,
the recorded start distance (100) is still present, and a stale-ratio trace
changes the field of view.  The trace records `startDist = 50` from a
two-finger start, drops to one contact, then sees three simultaneous
contacts (a touch-start with three touches, which records nothing), one
lift leaving two contacts 100 pixels apart, and a touch-move: the code
applies the stale ratio `50 / 100` and sets fov to `75 * 0.5 = 37.5`,
whereas discarded gesture state would have left fov at 75. -/
theorem gesture_state_not_discarded :
    (zoomStep ⟨75, 100, 75⟩ (ZoomEvent.touchEnd [⟨0, 0⟩])).startDist = 100 ∧
    ((100:ℝ) ≠ 0) ∧
    (runZoom ⟨75, 0, 75⟩
      [ZoomEvent.touchStart [⟨0, 0⟩, ⟨30, 40⟩],
       ZoomEvent.touchEnd [⟨0, 0⟩],
       ZoomEvent.touchStart [⟨0, 0⟩, ⟨0, 100⟩, ⟨7, 7⟩],
       ZoomEvent.touchEnd [⟨0, 0⟩, ⟨0, 100⟩],
       ZoomEvent.touchMove [⟨0, 0⟩, ⟨0, 100⟩]]).fov = 37.5 := by
  refine ⟨rfl, by norm_num, ?_⟩
  have h1 : zoomStep ⟨75, 0, 75⟩ (ZoomEvent.touchStart [⟨0, 0⟩, ⟨30, 40⟩]) =
      (⟨75, 50, 75⟩ : ZoomState) := by
    show handleTouchStart [⟨0, 0⟩, ⟨30, 40⟩] ⟨75, 0, 75⟩ = _
    rw [handleTouchStart_two, touchDist_fifty]
  have h5 : zoomStep ⟨75, 50, 75⟩ (ZoomEvent.touchMove [⟨0, 0⟩, ⟨0, 100⟩]) =
      (⟨37.5, 50, 75⟩ : ZoomState) := by
    show handleTouchMove [⟨0, 0⟩, ⟨0, 100⟩] ⟨75, 50, 75⟩ = _
    rw [handleTouchMove_two, touchDist_hundred, if_pos (by norm_num)]
    show (⟨clamp (75 * (50 / 100)) 30 120, 50, 75⟩ : ZoomState) = _
    unfold clamp
    norm_num
  unfold runZoom
  simp only [List.foldl_cons, List.foldl_nil]
  rw [h1]
  rw [show zoomStep ⟨75, 50, 75⟩ (ZoomEvent.touchEnd [⟨0, 0⟩]) = (⟨75, 50, 75⟩ : ZoomState)
    from rfl]
  rw [show zoomStep ⟨75, 50, 75⟩
      (ZoomEvent.touchStart [⟨0, 0⟩, ⟨0, 100⟩, ⟨7, 7⟩]) = (⟨75, 50, 75⟩ : ZoomState) from rfl]
  rw [show zoomStep ⟨75, 50, 75⟩ (ZoomEvent.touchEnd [⟨0, 0⟩, ⟨0, 100⟩]) =
      (⟨75, 50, 75⟩ : ZoomState) from rfl]
  rw [h5]

/-- C8 amended: no input event with fewer than two contacts touches the
recorded gesture state (nothing is ever discarded), and a touch-start with
exactly two contacts overwrites it with the fresh distance and the current
field of view. -/
theorem gesture_state_persistence (s : ZoomState) (ts : List Touch)
    (h : ts.length < 2) (t0 t1 : Touch) :
    (zoomStep s (ZoomEvent.touchStart ts)) = s ∧
    (zoomStep s (ZoomEvent.touchMove ts)) = s ∧
    (zoomStep s (ZoomEvent.touchEnd ts)) = s ∧
    (zoomStep s (ZoomEvent.touchStart [t0, t1])).startDist = touchDist t0 t1 ∧
    (zoomStep s (ZoomEvent.touchStart [t0, t1])).startFov = s.fov := by
  match ts with
  | [] => exact ⟨rfl, rfl, rfl, rfl, rfl⟩
  | [t] => exact ⟨rfl, rfl, rfl, rfl, rfl⟩
  | t :: t' :: rest => exact absurd h (by simp)

/-- Witness for the amended C8 at a one-contact event. -/
theorem gesture_state_persistence_witness :
    ([(⟨3, 4⟩ : Touch)].length < 2) ∧
    (zoomStep ⟨75, 50, 80⟩ (ZoomEvent.touchEnd [⟨3, 4⟩])) = ⟨75, 50, 80⟩ :=
  ⟨by norm_num,
    (gesture_state_persistence ⟨75, 50, 80⟩ [⟨3, 4⟩] (by norm_num) ⟨0, 0⟩ ⟨1, 1⟩).2.2.1⟩

/-- `√0.5 = √2 / 2`, linking the literal of `q1` in `handleOrientation`
with the sine and cosine of `π/4`. -/
lemma sqrt_half_eq : Real.sqrt 0.5 = Real.sqrt 2 / 2 := by
  have hne : Real.sqrt 2 ≠ 0 := by positivity
  rw [show (0.5 : ℝ) = 2⁻¹ by norm_num, Real.sqrt_inv]
  field_simp

/-- The fixed correction quaternion `q1 = (-√0.5, 0, 0, √0.5)` is the
axis-angle rotation of `-90°` about the lateral axis. -/
lemma q1_eq_qRotX : (⟨-Real.sqrt 0.5, 0, 0, Real.sqrt 0.5⟩ : Quat) =
    qRotX (-(Real.pi / 2)) := by
  unfold qRotX
  rw [show -(Real.pi / 2) / 2 = -(Real.pi / 4) by ring, Real.sin_neg, Real.cos_neg,
    Real.sin_pi_div_four, Real.cos_pi_div_four, sqrt_half_eq]

/-- The `'YXZ'` Euler-angle quaternion is the product of the axis rotations
about the vertical, lateral and depth axes, in that composition order. -/
lemma quatFromEulerYXZ_eq_product (ex ey ez : ℝ) :
    quatFromEulerYXZ ex ey ez =
      Quat.mul (Quat.mul (qRotY ey) (qRotX ex)) (qRotZ ez) := by
  simp only [quatFromEulerYXZ, qRotX, qRotY, qRotZ, Quat.mul, Quat.mk.injEq]
  refine ⟨by ring, by ring, by ring, by ring⟩

/-!
## C5 — orientation sample to target quaternion
-/

/-- C5: for every orientation sample with all three angles present, the
stored target equals the composition of the axis rotations — `beta` about
the lateral axis, `alpha` about the vertical axis, negated `gamma` about
the depth axis (the `'YXZ'` product `qY(alpha)·qX(beta)·qZ(-gamma)`) —
multiplied by the fixed `-90°` lateral-axis correction, all angles
converted from degrees to radians. -/
theorem orientation_target_formula (a b g : ℝ) :
    handleOrientation ⟨some a, some b, some g⟩ =
      some (Quat.mul (Quat.mul (Quat.mul (qRotY (degToRad a)) (qRotX (degToRad b)))
        (qRotZ (-degToRad g))) (qRotX (-(Real.pi / 2)))) := by
  show some (Quat.mul (quatFromEulerYXZ (degToRad b) (degToRad a) (-degToRad g))
      ⟨-Real.sqrt 0.5, 0, 0, Real.sqrt 0.5⟩) = _
  rw [quatFromEulerYXZ_eq_product, q1_eq_qRotX]

/-!
## C7 — exclusivity of the two orientation writers
-/

/-- C7: with motion control disabled, no delivered device-orientation
sample or render frame ever alters the camera orientation (the fusion
listeners are detached and the per-frame step writes nothing), and with
motion enabled a manual orbit drag writes nothing; so at every instant at
most one of the two subsystems writes camera orientation, selected by the
motion-enabled flag. -/
theorem motion_exclusivity :
    (∀ (evs : List MotionEvent) (s : MotionState),
        (∀ e ∈ evs, isOrientationEvent e) →
        (runMotion false s evs).cameraQuat = s.cameraQuat) ∧
    (∀ (s : MotionState) (e : MotionEvent), isOrientationEvent e →
        motionStep false s e = s) ∧
    (∀ (s : MotionState) (q : Quat),
        (motionStep true s (MotionEvent.orbitDrag q)).cameraQuat = s.cameraQuat) := by
  have hstep : ∀ (s : MotionState) (e : MotionEvent), isOrientationEvent e →
      motionStep false s e = s := by
    intro s e he
    cases e with
    | sample e0 => rfl
    | frame => rfl
    | orbitDrag q => exact absurd he (by simp [isOrientationEvent])
  refine ⟨?_, hstep, fun s q => rfl⟩
  intro evs
  induction evs with
  | nil => intro s _; rfl
  | cons e evs ih =>
      intro s hall
      show (runMotion false (motionStep false s e) evs).cameraQuat = s.cameraQuat
      rw [hstep s e (hall e (by simp))]
      exact ih s fun e' he' => hall e' (by simp [he'])

/-- Witness for C7: a sample followed by a frame, with motion disabled,
leaves a concrete camera orientation untouched. -/
theorem motion_exclusivity_witness :
    (∀ e ∈ [MotionEvent.sample ⟨some 10, some 20, some 30⟩, MotionEvent.frame],
        isOrientationEvent e) ∧
    (runMotion false ⟨⟨0, 0, 0, 1⟩, ⟨0, 0, 0, 1⟩, ⟨0.1, 0.2, 0.3, 0.9⟩⟩
        [MotionEvent.sample ⟨some 10, some 20, some 30⟩, MotionEvent.frame]).cameraQuat =
      (⟨0.1, 0.2, 0.3, 0.9⟩ : Quat) := by
  have hall : ∀ e ∈ [MotionEvent.sample ⟨some 10, some 20, some 30⟩, MotionEvent.frame],
      isOrientationEvent e := by
    intro e he
    fin_cases he <;> trivial
  exact ⟨hall, motion_exclusivity.1 _ ⟨⟨0, 0, 0, 1⟩, ⟨0, 0, 0, 1⟩, ⟨0.1, 0.2, 0.3, 0.9⟩⟩ hall⟩

/-!
## C3 — reset trigger
-/

/-- C3: any positive increment of the reset signal resets the full pose
(fov 75, position `(0, -0.07, 0.07)`, up `(0,1,0)`, orientation looking at
the origin) and the orbit subsystem's accumulated state; an unchanged
trigger, and in particular the initial zero value, changes nothing. -/
theorem reset_trigger_spec (s : CameraState) (t k : ℕ) (hk : 0 < k) :
    (processResetTrigger s t (t + k)).fov = 75 ∧
    (processResetTrigger s t (t + k)).pos = ⟨0, -0.07, 0.07⟩ ∧
    (processResetTrigger s t (t + k)).up = ⟨0, 1, 0⟩ ∧
    (processResetTrigger s t (t + k)).quat =
      lookAtQuat ⟨0, -0.07, 0.07⟩ ⟨0, 0, 0⟩ ⟨0, 1, 0⟩ ∧
    (processResetTrigger s t (t + k)).orbit = orbitDefault ∧
    processResetTrigger s t t = s ∧
    processResetTrigger s 0 0 = s := by
  have hne : t + k ≠ t := by omega
  have hpos : 0 < t + k := by omega
  unfold processResetTrigger applyReset
  rw [if_pos hne, if_pos hpos]
  refine ⟨rfl, rfl, rfl, rfl, rfl, ?_, ?_⟩ <;> simp

/-- Witness for C3: incrementing the trigger from 0 to 1 over a scrambled
prior pose. -/
theorem reset_trigger_spec_witness :
    0 < 1 ∧
    (processResetTrigger ⟨⟨1, 2, 3⟩, ⟨0, 0, 1⟩, ⟨0.5, 0.5, 0.5, 0.5⟩, 110, ⟨⟨1, 0, 0, 0⟩⟩⟩
      0 (0 + 1)).fov = 75 :=
  ⟨Nat.one_pos,
    (reset_trigger_spec ⟨⟨1, 2, 3⟩, ⟨0, 0, 1⟩, ⟨0.5, 0.5, 0.5, 0.5⟩, 110, ⟨⟨1, 0, 0, 0⟩⟩⟩
      0 1 Nat.one_pos).1⟩

/-!
## C9 — projection-mode change
-/

/-- C9: on every projection-mode change (dome to flat or flat to dome) the
field-of-view is set to 75 while camera position, up vector and orientation
keep their prior values. -/
theorem mode_change_spec (s : CameraState) (m m' : ProjectionMode) (h : m ≠ m') :
    (processModeChange s m m').fov = 75 ∧
    (processModeChange s m m').pos = s.pos ∧
    (processModeChange s m m').up = s.up ∧
    (processModeChange s m m').quat = s.quat ∧
    (processModeChange s m m').orbit = s.orbit := by
  unfold processModeChange
  rw [if_pos (Ne.symm h)]
  exact ⟨rfl, rfl, rfl, rfl, rfl⟩

/-- Witness for C9: switching dome → flat resets fov to 75 and keeps the pose. -/
theorem mode_change_spec_witness :
    ProjectionMode.dome ≠ ProjectionMode.flat ∧
    (processModeChange ⟨⟨1, 2, 3⟩, ⟨0, 1, 0⟩, ⟨0, 0, 0, 1⟩, 42, orbitDefault⟩
      ProjectionMode.dome ProjectionMode.flat).fov = 75 :=
  ⟨by decide,
    (mode_change_spec ⟨⟨1, 2, 3⟩, ⟨0, 1, 0⟩, ⟨0, 0, 0, 1⟩, 42, orbitDefault⟩
      ProjectionMode.dome ProjectionMode.flat (by decide)).1⟩

/-!
## C6 — orientation smoothing

`useFrame` advances the current orientation by `slerp(target, 0.1)` once
per render step and copies the result to the camera.  The three.js `slerp`
has three regimes: an early return when the quaternions are (anti-)aligned,
a normalized-linear-interpolation fallback when `1 - cos² ≤ Number.EPSILON`,
and the spherical formula otherwise.  In the spherical regime each step
multiplies the angular distance to the target by exactly 0.9; in the
epsilon fallback the exact geometric law fails (see the counterexample);
the target is never reached exactly in finitely many steps.
-/

/-- `Quat.dot` of the right-weighted combination built by the spherical
branch of `slerp`. -/
lemma quat_dot_combo (p q r : Quat) (α β : ℝ) :
    Quat.dot ⟨p.x * α + q.x * β, p.y * α + q.y * β, p.z * α + q.z * β,
      p.w * α + q.w * β⟩ r = α * Quat.dot p r + β * Quat.dot q r := by
  unfold Quat.dot
  ring

/-- `Quat.normSq` of the right-weighted combination built by the spherical
branch of `slerp`. -/
lemma quat_normSq_combo (p q : Quat) (α β : ℝ) :
    Quat.normSq ⟨p.x * α + q.x * β, p.y * α + q.y * β, p.z * α + q.z * β,
      p.w * α + q.w * β⟩ =
      α ^ 2 * p.normSq + 2 * α * β * Quat.dot p q + β ^ 2 * q.normSq := by
  unfold Quat.normSq Quat.dot
  ring

/-- `Quat.dot` of the left-weighted combination built by the linear
fallback branch of `slerp`. -/
lemma quat_dot_combo_left (p q r : Quat) (α β : ℝ) :
    Quat.dot ⟨α * p.x + β * q.x, α * p.y + β * q.y, α * p.z + β * q.z,
      α * p.w + β * q.w⟩ r = α * Quat.dot p r + β * Quat.dot q r := by
  unfold Quat.dot
  ring

/-- `Quat.normSq` of the left-weighted combination built by the linear
fallback branch of `slerp`. -/
lemma quat_normSq_combo_left (p q : Quat) (α β : ℝ) :
    Quat.normSq ⟨α * p.x + β * q.x, α * p.y + β * q.y, α * p.z + β * q.z,
      α * p.w + β * q.w⟩ =
      α ^ 2 * p.normSq + 2 * α * β * Quat.dot p q + β ^ 2 * q.normSq := by
  unfold Quat.normSq Quat.dot
  ring

lemma quat_dot_neg_left (p r : Quat) : Quat.dot (Quat.neg p) r = -Quat.dot p r := by
  unfold Quat.dot Quat.neg
  ring

lemma quat_dot_neg_right (p r : Quat) : Quat.dot p (Quat.neg r) = -Quat.dot p r := by
  unfold Quat.dot Quat.neg
  ring

lemma quat_normSq_neg (p : Quat) : (Quat.neg p).normSq = p.normSq := by
  unfold Quat.normSq Quat.neg
  ring

lemma quat_dot_self (p : Quat) : Quat.dot p p = p.normSq := by
  unfold Quat.dot Quat.normSq
  ring

lemma quat_dot_smul_left (k : ℝ) (p r : Quat) :
    Quat.dot (Quat.smul k p) r = k * Quat.dot p r := by
  unfold Quat.dot Quat.smul
  ring

lemma quat_normSq_smul (k : ℝ) (p : Quat) :
    (Quat.smul k p).normSq = k ^ 2 * p.normSq := by
  unfold Quat.normSq Quat.smul
  ring

/-- Cauchy–Schwarz for unit quaternions. -/
lemma quat_abs_dot_le_one (p q : Quat) (hp : p.normSq = 1) (hq : q.normSq = 1) :
    |Quat.dot p q| ≤ 1 := by
  unfold Quat.normSq at hp hq
  unfold Quat.dot
  rw [abs_le]
  constructor
  · nlinarith [sq_nonneg (p.x + q.x), sq_nonneg (p.y + q.y), sq_nonneg (p.z + q.z),
      sq_nonneg (p.w + q.w)]
  · nlinarith [sq_nonneg (p.x - q.x), sq_nonneg (p.y - q.y), sq_nonneg (p.z - q.z),
      sq_nonneg (p.w - q.w)]

/-- Two unit quaternions with inner product 1 are equal. -/
lemma quat_eq_of_dot_eq_one (p q : Quat) (hp : p.normSq = 1) (hq : q.normSq = 1)
    (hd : Quat.dot p q = 1) : p = q := by
  unfold Quat.normSq at hp hq
  unfold Quat.dot at hd
  have hx : p.x = q.x := by
    nlinarith [sq_nonneg (p.x - q.x), sq_nonneg (p.y - q.y), sq_nonneg (p.z - q.z),
      sq_nonneg (p.w - q.w)]
  have hy : p.y = q.y := by
    nlinarith [sq_nonneg (p.x - q.x), sq_nonneg (p.y - q.y), sq_nonneg (p.z - q.z),
      sq_nonneg (p.w - q.w)]
  have hz : p.z = q.z := by
    nlinarith [sq_nonneg (p.x - q.x), sq_nonneg (p.y - q.y), sq_nonneg (p.z - q.z),
      sq_nonneg (p.w - q.w)]
  have hw : p.w = q.w := by
    nlinarith [sq_nonneg (p.x - q.x), sq_nonneg (p.y - q.y), sq_nonneg (p.z - q.z),
      sq_nonneg (p.w - q.w)]
  cases p
  cases q
  simp only [Quat.mk.injEq]
  exact ⟨hx, hy, hz, hw⟩

/-- `Math.atan2(√(1 - c²), c)` is `arccos c` on `[0, 1]`. -/
lemma atan2_sqrt_one_sub_sq (c : ℝ) (h0 : 0 ≤ c) (h1 : c ≤ 1) :
    atan2 (Real.sqrt (1 - c * c)) c = Real.arccos c := by
  unfold atan2
  have hmem : Real.arccos c ∈ Set.Ioc (-Real.pi) Real.pi :=
    ⟨lt_of_lt_of_le (neg_neg_of_pos Real.pi_pos) (Real.arccos_nonneg c),
      Real.arccos_le_pi c⟩
  have heq : (⟨c, Real.sqrt (1 - c * c)⟩ : ℂ) =
      (Real.cos (Real.arccos c) : ℂ) + (Real.sin (Real.arccos c) : ℂ) * Complex.I := by
    rw [Real.cos_arccos (by linarith) h1, Real.sin_arccos,
      show (1 : ℝ) - c ^ 2 = 1 - c * c by ring]
    apply Complex.ext <;> simp
  rw [heq, Complex.ofReal_cos, Complex.ofReal_sin, Complex.arg_cos_add_sin_mul_I hmem]

/-- Chebyshev-style recurrence for cosines of integer multiples. -/
lemma cos_step (y k : ℝ) :
    Real.cos ((k + 1) * y) = 2 * Real.cos y * Real.cos (k * y) - Real.cos ((k - 1) * y) := by
  rw [show (k + 1) * y = k * y + y by ring, show (k - 1) * y = k * y - y by ring,
    Real.cos_add, Real.cos_sub]
  ring

/-- Closed forms for `cos(9y)` and `cos(10y)` as polynomials in `cos y`. -/
lemma cos_nine_ten (y c : ℝ) (hc : Real.cos y = c) :
    Real.cos (9 * y) = 256 * c ^ 9 - 576 * c ^ 7 + 432 * c ^ 5 - 120 * c ^ 3 + 9 * c ∧
    Real.cos (10 * y) =
      512 * c ^ 10 - 1280 * c ^ 8 + 1120 * c ^ 6 - 400 * c ^ 4 + 50 * c ^ 2 - 1 := by
  have h0 : Real.cos (0 * y) = 1 := by rw [zero_mul, Real.cos_zero]
  have h1 : Real.cos (1 * y) = c := by rw [one_mul, hc]
  have h2 : Real.cos (2 * y) = 2 * c ^ 2 - 1 := by
    have h := cos_step y 1
    rw [show ((1 : ℝ) + 1) = 2 by norm_num, show ((1 : ℝ) - 1) = 0 by norm_num] at h
    rw [h, h1, h0, hc]
    ring
  have h3 : Real.cos (3 * y) = 4 * c ^ 3 - 3 * c := by
    have h := cos_step y 2
    rw [show ((2 : ℝ) + 1) = 3 by norm_num, show ((2 : ℝ) - 1) = 1 by norm_num] at h
    rw [h, h2, h1, hc]
    ring
  have h4 : Real.cos (4 * y) = 8 * c ^ 4 - 8 * c ^ 2 + 1 := by
    have h := cos_step y 3
    rw [show ((3 : ℝ) + 1) = 4 by norm_num, show ((3 : ℝ) - 1) = 2 by norm_num] at h
    rw [h, h3, h2, hc]
    ring
  have h5 : Real.cos (5 * y) = 16 * c ^ 5 - 20 * c ^ 3 + 5 * c := by
    have h := cos_step y 4
    rw [show ((4 : ℝ) + 1) = 5 by norm_num, show ((4 : ℝ) - 1) = 3 by norm_num] at h
    rw [h, h4, h3, hc]
    ring
  have h6 : Real.cos (6 * y) = 32 * c ^ 6 - 48 * c ^ 4 + 18 * c ^ 2 - 1 := by
    have h := cos_step y 5
    rw [show ((5 : ℝ) + 1) = 6 by norm_num, show ((5 : ℝ) - 1) = 4 by norm_num] at h
    rw [h, h5, h4, hc]
    ring
  have h7 : Real.cos (7 * y) = 64 * c ^ 7 - 112 * c ^ 5 + 56 * c ^ 3 - 7 * c := by
    have h := cos_step y 6
    rw [show ((6 : ℝ) + 1) = 7 by norm_num, show ((6 : ℝ) - 1) = 5 by norm_num] at h
    rw [h, h6, h5, hc]
    ring
  have h8 : Real.cos (8 * y) =
      128 * c ^ 8 - 256 * c ^ 6 + 160 * c ^ 4 - 32 * c ^ 2 + 1 := by
    have h := cos_step y 7
    rw [show ((7 : ℝ) + 1) = 8 by norm_num, show ((7 : ℝ) - 1) = 6 by norm_num] at h
    rw [h, h7, h6, hc]
    ring
  have h9 : Real.cos (9 * y) =
      256 * c ^ 9 - 576 * c ^ 7 + 432 * c ^ 5 - 120 * c ^ 3 + 9 * c := by
    have h := cos_step y 8
    rw [show ((8 : ℝ) + 1) = 9 by norm_num, show ((8 : ℝ) - 1) = 7 by norm_num] at h
    rw [h, h8, h7, hc]
    ring
  refine ⟨h9, ?_⟩
  have h := cos_step y 9
  rw [show ((9 : ℝ) + 1) = 10 by norm_num, show ((9 : ℝ) - 1) = 8 by norm_num] at h
  rw [h, h9, h8, hc]
  ring

/-- The dot product of `slerp` written in the component order of the
three.js source. -/
lemma slerp_dot_rewrite (qa qb : Quat) :
    qa.w * qb.w + qa.x * qb.x + qa.y * qb.y + qa.z * qb.z = Quat.dot qa qb := by
  unfold Quat.dot
  ring

/-- `slerp` at `t = 0.1` in the aligned/anti-aligned early-return branch. -/
lemma slerpQ_early (qa qb : Quat) (h : 1 ≤ |Quat.dot qa qb|) :
    slerpQ qa qb 0.1 = qa := by
  simp only [slerpQ]
  rw [if_neg (by norm_num : ¬ (0.1 : ℝ) = 0), if_neg (by norm_num : ¬ (0.1 : ℝ) = 1),
    slerp_dot_rewrite]
  rcases lt_or_le (Quat.dot qa qb) 0 with hneg | hnn
  · rw [if_pos hneg, if_pos (by rwa [abs_of_neg hneg] at h)]
  · rw [if_neg (not_lt.mpr hnn), if_pos (by rwa [abs_of_nonneg hnn] at h)]

/-- `slerp` at `t = 0.1` in the linear fallback branch, nonnegative dot. -/
lemma slerpQ_lerp_pos (qa qb : Quat) (hnn : ¬ Quat.dot qa qb < 0)
    (h1 : ¬ 1 ≤ Quat.dot qa qb)
    (h2 : 1 - Quat.dot qa qb * Quat.dot qa qb ≤ numberEpsilon) :
    slerpQ qa qb 0.1 =
      Quat.normalizeQ ⟨(1 - 0.1) * qa.x + 0.1 * qb.x, (1 - 0.1) * qa.y + 0.1 * qb.y,
        (1 - 0.1) * qa.z + 0.1 * qb.z, (1 - 0.1) * qa.w + 0.1 * qb.w⟩ := by
  simp only [slerpQ]
  rw [if_neg (by norm_num : ¬ (0.1 : ℝ) = 0), if_neg (by norm_num : ¬ (0.1 : ℝ) = 1),
    slerp_dot_rewrite]
  simp only [if_neg hnn, if_neg h1, if_pos h2]

/-- `slerp` at `t = 0.1` in the linear fallback branch, negative dot. -/
lemma slerpQ_lerp_neg (qa qb : Quat) (hneg : Quat.dot qa qb < 0)
    (h1 : ¬ 1 ≤ -Quat.dot qa qb)
    (h2 : 1 - -Quat.dot qa qb * -Quat.dot qa qb ≤ numberEpsilon) :
    slerpQ qa qb 0.1 =
      Quat.normalizeQ ⟨(1 - 0.1) * qa.x + 0.1 * (Quat.neg qb).x,
        (1 - 0.1) * qa.y + 0.1 * (Quat.neg qb).y,
        (1 - 0.1) * qa.z + 0.1 * (Quat.neg qb).z,
        (1 - 0.1) * qa.w + 0.1 * (Quat.neg qb).w⟩ := by
  simp only [slerpQ]
  rw [if_neg (by norm_num : ¬ (0.1 : ℝ) = 0), if_neg (by norm_num : ¬ (0.1 : ℝ) = 1),
    slerp_dot_rewrite]
  simp only [if_pos hneg, if_neg h1, if_pos h2]

/-- `slerp` at `t = 0.1` in the spherical branch, nonnegative dot. -/
lemma slerpQ_spherical_pos (qa qb : Quat) (hnn : ¬ Quat.dot qa qb < 0)
    (h1 : ¬ 1 ≤ Quat.dot qa qb)
    (h2 : ¬ 1 - Quat.dot qa qb * Quat.dot qa qb ≤ numberEpsilon) :
    slerpQ qa qb 0.1 =
      ⟨qa.x * (Real.sin (0.9 * Real.arccos (Quat.dot qa qb)) /
          Real.sqrt (1 - Quat.dot qa qb * Quat.dot qa qb)) +
        qb.x * (Real.sin (0.1 * Real.arccos (Quat.dot qa qb)) /
          Real.sqrt (1 - Quat.dot qa qb * Quat.dot qa qb)),
       qa.y * (Real.sin (0.9 * Real.arccos (Quat.dot qa qb)) /
          Real.sqrt (1 - Quat.dot qa qb * Quat.dot qa qb)) +
        qb.y * (Real.sin (0.1 * Real.arccos (Quat.dot qa qb)) /
          Real.sqrt (1 - Quat.dot qa qb * Quat.dot qa qb)),
       qa.z * (Real.sin (0.9 * Real.arccos (Quat.dot qa qb)) /
          Real.sqrt (1 - Quat.dot qa qb * Quat.dot qa qb)) +
        qb.z * (Real.sin (0.1 * Real.arccos (Quat.dot qa qb)) /
          Real.sqrt (1 - Quat.dot qa qb * Quat.dot qa qb)),
       qa.w * (Real.sin (0.9 * Real.arccos (Quat.dot qa qb)) /
          Real.sqrt (1 - Quat.dot qa qb * Quat.dot qa qb)) +
        qb.w * (Real.sin (0.1 * Real.arccos (Quat.dot qa qb)) /
          Real.sqrt (1 - Quat.dot qa qb * Quat.dot qa qb))⟩ := by
  simp only [slerpQ]
  rw [if_neg (by norm_num : ¬ (0.1 : ℝ) = 0), if_neg (by norm_num : ¬ (0.1 : ℝ) = 1),
    slerp_dot_rewrite]
  simp only [if_neg hnn, if_neg h1, if_neg h2]
  rw [atan2_sqrt_one_sub_sq (Quat.dot qa qb) (not_lt.mp hnn) (le_of_lt (not_le.mp h1)),
    show (1 : ℝ) - 0.1 = 0.9 by norm_num]

/-- `slerp` at `t = 0.1` in the spherical branch, negative dot. -/
lemma slerpQ_spherical_neg (qa qb : Quat) (hneg : Quat.dot qa qb < 0)
    (h1 : ¬ 1 ≤ -Quat.dot qa qb)
    (h2 : ¬ 1 - -Quat.dot qa qb * -Quat.dot qa qb ≤ numberEpsilon) :
    slerpQ qa qb 0.1 =
      ⟨qa.x * (Real.sin (0.9 * Real.arccos (-Quat.dot qa qb)) /
          Real.sqrt (1 - -Quat.dot qa qb * -Quat.dot qa qb)) +
        (Quat.neg qb).x * (Real.sin (0.1 * Real.arccos (-Quat.dot qa qb)) /
          Real.sqrt (1 - -Quat.dot qa qb * -Quat.dot qa qb)),
       qa.y * (Real.sin (0.9 * Real.arccos (-Quat.dot qa qb)) /
          Real.sqrt (1 - -Quat.dot qa qb * -Quat.dot qa qb)) +
        (Quat.neg qb).y * (Real.sin (0.1 * Real.arccos (-Quat.dot qa qb)) /
          Real.sqrt (1 - -Quat.dot qa qb * -Quat.dot qa qb)),
       qa.z * (Real.sin (0.9 * Real.arccos (-Quat.dot qa qb)) /
          Real.sqrt (1 - -Quat.dot qa qb * -Quat.dot qa qb)) +
        (Quat.neg qb).z * (Real.sin (0.1 * Real.arccos (-Quat.dot qa qb)) /
          Real.sqrt (1 - -Quat.dot qa qb * -Quat.dot qa qb)),
       qa.w * (Real.sin (0.9 * Real.arccos (-Quat.dot qa qb)) /
          Real.sqrt (1 - -Quat.dot qa qb * -Quat.dot qa qb)) +
        (Quat.neg qb).w * (Real.sin (0.1 * Real.arccos (-Quat.dot qa qb)) /
          Real.sqrt (1 - -Quat.dot qa qb * -Quat.dot qa qb))⟩ := by
  simp only [slerpQ]
  rw [if_neg (by norm_num : ¬ (0.1 : ℝ) = 0), if_neg (by norm_num : ¬ (0.1 : ℝ) = 1),
    slerp_dot_rewrite]
  simp only [if_pos hneg, if_neg h1, if_neg h2]
  rw [atan2_sqrt_one_sub_sq (-Quat.dot qa qb) (by linarith) (le_of_lt (not_le.mp h1)),
    show (1 : ℝ) - 0.1 = 0.9 by norm_num]

/-- Scalar identity: the spherical-branch result has unit norm. -/
lemma slerp_norm_scalar (A B C S c : ℝ) (hS : S ≠ 0) (hB : B = S * C - c * A)
    (hS2 : S * S = 1 - c * c) (hAC : A ^ 2 + C ^ 2 = 1) :
    (A / S) ^ 2 * 1 + 2 * (A / S) * (B / S) * c + (B / S) ^ 2 * 1 = 1 := by
  have key : A ^ 2 + 2 * A * (S * C - c * A) * c + (S * C - c * A) ^ 2 = S * S := by
    linear_combination (-(A ^ 2)) * hS2 + (S * S) * hAC
  rw [hB]
  field_simp
  linear_combination (S ^ 2 * S ^ 2) * key

/-- Scalar identity: the spherical-branch result's dot with the target. -/
lemma slerp_dot_scalar (A B C S c : ℝ) (hS : S ≠ 0) (hB : B = S * C - c * A) :
    A / S * c + B / S = C := by
  rw [hB]
  field_simp
  ring

/-- Absolute value of the spherical-branch dot, flipped-sign case. -/
lemma slerp_dot_scalar_neg (A B C S c : ℝ) (hS : S ≠ 0) (hB : B = S * C - c * A)
    (hC : 0 < C) : |A / S * -c + B / S * -1| = C := by
  rw [show A / S * -c + B / S * -1 = -(A / S * c + B / S) by ring,
    slerp_dot_scalar A B C S c hS hB, abs_neg, abs_of_pos hC]

/-- Absolute value of the spherical-branch dot, plain case. -/
lemma slerp_dot_scalar_pos (A B C S c : ℝ) (hS : S ≠ 0) (hB : B = S * C - c * A)
    (hC : 0 < C) : |A / S * c + B / S * 1| = C := by
  rw [show A / S * c + B / S * 1 = A / S * c + B / S by ring,
    slerp_dot_scalar A B C S c hS hB, abs_of_pos hC]

/-- One spherical-branch smoothing step keeps the orientation unit and
turns the half-angle cosine into `cos(0.9 · arccos |⟨qa, qb⟩|)`. -/
lemma slerp_step_main (qa qb : Quat) (ha : qa.normSq = 1) (hb : qb.normSq = 1)
    (h1 : |Quat.dot qa qb| < 1)
    (h2 : numberEpsilon < 1 - |Quat.dot qa qb| * |Quat.dot qa qb|) :
    (slerpQ qa qb 0.1).normSq = 1 ∧
    |Quat.dot (slerpQ qa qb 0.1) qb| =
      Real.cos (0.9 * Real.arccos |Quat.dot qa qb|) := by
  set c := |Quat.dot qa qb| with hc
  have hc0 : (0 : ℝ) ≤ c := hc ▸ abs_nonneg _
  have hpi := Real.pi_pos
  have hh0 : 0 < Real.arccos c := Real.arccos_pos.mpr h1
  have hhle : Real.arccos c ≤ Real.pi / 2 := Real.arccos_le_pi_div_two.mpr hc0
  have hch : Real.cos (Real.arccos c) = c := Real.cos_arccos (by linarith) h1.le
  have hposrad : (0 : ℝ) < 1 - c * c := by
    have heps : (0 : ℝ) < numberEpsilon := by norm_num [numberEpsilon]
    linarith
  have hS2 : Real.sqrt (1 - c * c) * Real.sqrt (1 - c * c) = 1 - c * c :=
    Real.mul_self_sqrt hposrad.le
  have hSpos : 0 < Real.sqrt (1 - c * c) := Real.sqrt_pos.mpr hposrad
  have hsinh : Real.sin (Real.arccos c) = Real.sqrt (1 - c * c) := by
    rw [Real.sin_arccos, show (1 : ℝ) - c ^ 2 = 1 - c * c by ring]
  have hB : Real.sin (0.1 * Real.arccos c) =
      Real.sqrt (1 - c * c) * Real.cos (0.9 * Real.arccos c) -
      c * Real.sin (0.9 * Real.arccos c) := by
    rw [show (0.1 : ℝ) * Real.arccos c =
      Real.arccos c - 0.9 * Real.arccos c by ring, Real.sin_sub, hsinh, hch]
  have hAC : Real.sin (0.9 * Real.arccos c) ^ 2 +
      Real.cos (0.9 * Real.arccos c) ^ 2 = 1 := Real.sin_sq_add_cos_sq _
  have hCpos : 0 < Real.cos (0.9 * Real.arccos c) :=
    Real.cos_pos_of_mem_Ioo ⟨by nlinarith, by nlinarith⟩
  rcases lt_or_le (Quat.dot qa qb) 0 with hneg | hnn
  · have hcd : -Quat.dot qa qb = c := by rw [hc, abs_of_neg hneg]
    have hred := slerpQ_spherical_neg qa qb hneg
      (by rw [hcd]; exact not_le.mpr h1)
      (by rw [hcd]; exact not_le.mpr h2)
    rw [hcd] at hred
    have hd2 : Quat.dot qa qb = -c := by linarith
    constructor
    · rw [hred, quat_normSq_combo, ha, quat_normSq_neg, hb, quat_dot_neg_right, hcd]
      exact slerp_norm_scalar _ _ _ _ _ (ne_of_gt hSpos) hB hS2 hAC
    · rw [hred, quat_dot_combo, quat_dot_neg_left, quat_dot_self, hb, hd2]
      exact slerp_dot_scalar_neg _ _ _ _ _ (ne_of_gt hSpos) hB hCpos
  · have hcd : Quat.dot qa qb = c := by rw [hc, abs_of_nonneg hnn]
    have hred := slerpQ_spherical_pos qa qb (not_lt.mpr hnn)
      (by rw [hcd]; exact not_le.mpr h1)
      (by rw [hcd]; exact not_le.mpr h2)
    rw [hcd] at hred
    constructor
    · rw [hred, quat_normSq_combo, ha, hb, hcd]
      exact slerp_norm_scalar _ _ _ _ _ (ne_of_gt hSpos) hB hS2 hAC
    · rw [hred, quat_dot_combo, quat_dot_self, hb, hcd]
      exact slerp_dot_scalar_pos _ _ _ _ _ (ne_of_gt hSpos) hB hCpos

/-- One spherical-branch step multiplies the angular distance by 0.9. -/
lemma slerp_step_angDist (qa qb : Quat) (ha : qa.normSq = 1) (hb : qb.normSq = 1)
    (h1 : |Quat.dot qa qb| < 1)
    (h2 : numberEpsilon < 1 - |Quat.dot qa qb| * |Quat.dot qa qb|) :
    angDist (slerpQ qa qb 0.1) qb = 0.9 * angDist qa qb := by
  unfold angDist
  rw [(slerp_step_main qa qb ha hb h1 h2).2,
    Real.arccos_cos (mul_nonneg (by norm_num) (Real.arccos_nonneg _))
      (by nlinarith [Real.arccos_le_pi |Quat.dot qa qb|, Real.pi_pos,
        Real.arccos_nonneg |Quat.dot qa qb|])]

/-- `Quaternion.normalize` lands on the unit sphere when the input has
positive squared norm. -/
lemma normalizeQ_length_pos (v : Quat) (hv : 0 < v.normSq) : 0 < v.length := by
  unfold Quat.length
  exact Real.sqrt_pos.mpr hv

lemma normalizeQ_normSq (v : Quat) (hv : 0 < v.normSq) :
    (Quat.normalizeQ v).normSq = 1 := by
  have hLpos := normalizeQ_length_pos v hv
  unfold Quat.normalizeQ
  rw [if_neg (ne_of_gt hLpos), quat_normSq_smul, div_pow, one_pow]
  have hsq : v.length ^ 2 = v.normSq := by
    unfold Quat.length
    exact Real.sq_sqrt hv.le
  rw [hsq, one_div, inv_mul_cancel₀ (ne_of_gt hv)]

lemma normalizeQ_dot (v r : Quat) (hv : 0 < v.normSq) :
    Quat.dot (Quat.normalizeQ v) r = 1 / v.length * Quat.dot v r := by
  unfold Quat.normalizeQ
  rw [if_neg (ne_of_gt (normalizeQ_length_pos v hv)), quat_dot_smul_left]

/-- Every smoothing step keeps the orientation unit and never lands exactly
on a target distinct from the current orientation. -/
lemma slerp_step_props (qa qb : Quat) (ha : qa.normSq = 1) (hb : qb.normSq = 1) :
    (slerpQ qa qb 0.1).normSq = 1 ∧ (qa ≠ qb → slerpQ qa qb 0.1 ≠ qb) := by
  rcases le_or_lt 1 |Quat.dot qa qb| with habs | habs
  · rw [slerpQ_early qa qb habs]
    exact ⟨ha, fun hne => hne⟩
  · have habs' := abs_lt.mp habs
    by_cases heps : 1 - |Quat.dot qa qb| * |Quat.dot qa qb| ≤ numberEpsilon
    · rcases lt_or_le (Quat.dot qa qb) 0 with hneg | hnn
      · -- linear fallback, flipped target
        have hcd : -Quat.dot qa qb = |Quat.dot qa qb| := (abs_of_neg hneg).symm
        have hred := slerpQ_lerp_neg qa qb hneg
          (by rw [hcd]; exact not_le.mpr habs) (by rw [hcd]; exact heps)
        set v : Quat := ⟨(1 - 0.1) * qa.x + 0.1 * (Quat.neg qb).x,
          (1 - 0.1) * qa.y + 0.1 * (Quat.neg qb).y,
          (1 - 0.1) * qa.z + 0.1 * (Quat.neg qb).z,
          (1 - 0.1) * qa.w + 0.1 * (Quat.neg qb).w⟩ with hvdef
        have hvn : v.normSq = 0.82 + 0.18 * |Quat.dot qa qb| := by
          rw [hvdef, quat_normSq_combo_left, ha, quat_normSq_neg, hb,
            quat_dot_neg_right, hcd]
          ring
        have hvpos : 0 < v.normSq := by
          rw [hvn]
          nlinarith [abs_nonneg (Quat.dot qa qb)]
        constructor
        · rw [hred]
          exact normalizeQ_normSq v hvpos
        · intro hne heq
          rw [hred] at heq
          have hdot1 : Quat.dot (Quat.normalizeQ v) qb = 1 := by
            rw [heq, quat_dot_self, hb]
          rw [normalizeQ_dot v qb hvpos] at hdot1
          have hdv : Quat.dot v qb = 0.9 * Quat.dot qa qb - 0.1 := by
            rw [hvdef, quat_dot_combo_left, quat_dot_neg_left, quat_dot_self, hb]
            ring
          have hXneg : Quat.dot v qb < 0 := by
            rw [hdv]
            linarith
          have hLpos := normalizeQ_length_pos v hvpos
          nlinarith [hdot1, hXneg, one_div_pos.mpr hLpos]
      · -- linear fallback, plain target
        have hcd : Quat.dot qa qb = |Quat.dot qa qb| := (abs_of_nonneg hnn).symm
        have hred := slerpQ_lerp_pos qa qb (not_lt.mpr hnn)
          (by rw [hcd]; exact not_le.mpr habs) (by rw [hcd]; exact heps)
        set v : Quat := ⟨(1 - 0.1) * qa.x + 0.1 * qb.x,
          (1 - 0.1) * qa.y + 0.1 * qb.y,
          (1 - 0.1) * qa.z + 0.1 * qb.z,
          (1 - 0.1) * qa.w + 0.1 * qb.w⟩ with hvdef
        have hvn : v.normSq = 0.82 + 0.18 * Quat.dot qa qb := by
          rw [hvdef, quat_normSq_combo_left, ha, hb]
          ring
        have hvpos : 0 < v.normSq := by
          rw [hvn]
          nlinarith [habs'.1]
        constructor
        · rw [hred]
          exact normalizeQ_normSq v hvpos
        · intro hne heq
          rw [hred] at heq
          have hdot1 : Quat.dot (Quat.normalizeQ v) qb = 1 := by
            rw [heq, quat_dot_self, hb]
          rw [normalizeQ_dot v qb hvpos] at hdot1
          have hdv : Quat.dot v qb = 0.9 * Quat.dot qa qb + 0.1 := by
            rw [hvdef, quat_dot_combo_left, quat_dot_self, hb]
            ring
          have hLpos := normalizeQ_length_pos v hvpos
          have hXL : Quat.dot v qb = v.length := by
            field_simp [ne_of_gt hLpos] at hdot1
            linarith
          have hsq : Quat.dot v qb ^ 2 = v.normSq := by
            rw [hXL]
            unfold Quat.length
            exact Real.sq_sqrt hvpos.le
          rw [hdv, hvn] at hsq
          nlinarith [habs'.1, habs'.2]
    · -- spherical branch
      push_neg at heps
      have hmain := slerp_step_main qa qb ha hb habs heps
      refine ⟨hmain.1, fun hne heq => ?_⟩
      have h2' := hmain.2
      rw [heq, quat_dot_self, hb, abs_one] at h2'
      have hlt : Real.cos (0.9 * Real.arccos |Quat.dot qa qb|) < 1 := by
        have h0 : 0 < 0.9 * Real.arccos |Quat.dot qa qb| :=
          mul_pos (by norm_num) (Real.arccos_pos.mpr habs)
        have hle : 0.9 * Real.arccos |Quat.dot qa qb| ≤ Real.pi := by
          nlinarith [Real.arccos_le_pi |Quat.dot qa qb|, Real.pi_pos,
            Real.arccos_nonneg |Quat.dot qa qb|]
        calc Real.cos (0.9 * Real.arccos |Quat.dot qa qb|)
            < Real.cos 0 := Real.cos_lt_cos_of_nonneg_of_le_pi le_rfl hle h0
          _ = 1 := Real.cos_zero
      linarith

/-- Iterated smoothing keeps the orientation unit. -/
lemma slerpIter_unit (qt q0 : Quat) (h0 : q0.normSq = 1) (ht : qt.normSq = 1) :
    ∀ n, (slerpIter qt q0 n).normSq = 1 := by
  intro n
  induction n with
  | zero => exact h0
  | succ n ih => exact (slerp_step_props _ _ ih ht).1

/-- Iterated smoothing never reaches a distinct target exactly. -/
lemma slerpIter_ne (qt q0 : Quat) (h0 : q0.normSq = 1) (ht : qt.normSq = 1)
    (hne : q0 ≠ qt) : ∀ n, slerpIter qt q0 n ≠ qt := by
  intro n
  induction n with
  | zero => exact hne
  | succ n ih => exact (slerp_step_props _ _ (slerpIter_unit qt q0 h0 ht n) ht).2 ih

/-- Shifting the start of the iteration by one smoothing step. -/
lemma slerpIter_shift (qt q0 : Quat) (n : ℕ) :
    slerpIter qt (slerpQ q0 qt 0.1) n = slerpIter qt q0 (n + 1) := by
  induction n with
  | zero => rfl
  | succ n ih =>
      show slerpQ (slerpIter qt (slerpQ q0 qt 0.1) n) qt 0.1 = _
      rw [ih]
      rfl

/-- Running `n` render frames with motion enabled iterates the smoothing
step on `current` and mirrors it into the camera orientation. -/
lemma runMotion_frames (s : MotionState) (n : ℕ) :
    (runMotion true s (List.replicate n MotionEvent.frame)).target = s.target ∧
    (runMotion true s (List.replicate n MotionEvent.frame)).current =
      slerpIter s.target s.current n ∧
    (0 < n → (runMotion true s (List.replicate n MotionEvent.frame)).cameraQuat =
      (runMotion true s (List.replicate n MotionEvent.frame)).current) := by
  induction n generalizing s with
  | zero => exact ⟨rfl, rfl, fun h => absurd h (by norm_num)⟩
  | succ n ih =>
      have hstep : motionStep true s MotionEvent.frame =
          ⟨s.target, slerpQ s.current s.target 0.1, slerpQ s.current s.target 0.1⟩ := rfl
      have hrun : runMotion true s (List.replicate (n + 1) MotionEvent.frame) =
          runMotion true (motionStep true s MotionEvent.frame)
            (List.replicate n MotionEvent.frame) := rfl
      rw [hrun, hstep]
      rcases ih ⟨s.target, slerpQ s.current s.target 0.1, slerpQ s.current s.target 0.1⟩
        with ⟨h1, h2, h3⟩
      refine ⟨h1, h2.trans (slerpIter_shift s.target s.current n), fun hpos => ?_⟩
      rcases Nat.eq_zero_or_pos n with rfl | hn
      · rfl
      · exact h3 hn

/-!
### C6 theorems

The claim asserts exact geometric decay `angle(q0,qt)·0.9ⁿ` for all `n`.
That law holds exactly while every step stays in the spherical branch of
`slerp` (half-angle sine squared above `Number.EPSILON`); once the
orientation is close enough to the target, the code switches to normalized
linear interpolation and the exact law fails, as the counterexample shows.
The target is never reached exactly regardless of branch.
-/

/-- C6 (amended): with motion enabled, each render step slerps `current`
toward the constant target with factor 0.1 and writes the result to the
camera; while every step up to `n` stays in the spherical branch (the
squared sine of the half angle exceeds `2⁻⁵²`), the angular distance after
`n` steps equals `angle(q0, qt) · 0.9ⁿ`; the target, when distinct from the
start, is never reached in finitely many steps. -/
theorem orientation_smoothing_decay :
    (∀ (qt q0 : Quat) (n : ℕ), q0.normSq = 1 → qt.normSq = 1 →
      (∀ k < n, |Quat.dot (slerpIter qt q0 k) qt| < 1 ∧
        numberEpsilon <
          1 - |Quat.dot (slerpIter qt q0 k) qt| * |Quat.dot (slerpIter qt q0 k) qt|) →
      angDist (slerpIter qt q0 n) qt = angDist q0 qt * 0.9 ^ n) ∧
    (∀ (qt q0 : Quat) (n : ℕ), q0.normSq = 1 → qt.normSq = 1 → q0 ≠ qt →
      slerpIter qt q0 n ≠ qt) ∧
    (∀ (s : MotionState) (n : ℕ),
      (runMotion true s (List.replicate n MotionEvent.frame)).current =
        slerpIter s.target s.current n ∧
      (0 < n → (runMotion true s (List.replicate n MotionEvent.frame)).cameraQuat =
        slerpIter s.target s.current n)) := by
  refine ⟨?_, ?_, ?_⟩
  · intro qt q0 n h0 ht hmb
    induction n with
    | zero =>
        show angDist q0 qt = angDist q0 qt * 0.9 ^ 0
        rw [pow_zero, mul_one]
    | succ n ih =>
        have hk := hmb n (by omega)
        have hstep := slerp_step_angDist (slerpIter qt q0 n) qt
          (slerpIter_unit qt q0 h0 ht n) ht hk.1 hk.2
        show angDist (slerpQ (slerpIter qt q0 n) qt 0.1) qt = angDist q0 qt * 0.9 ^ (n + 1)
        rw [hstep, ih (fun k hkn => hmb k (by omega))]
        ring
  · intro qt q0 n h0 ht hne
    exact slerpIter_ne qt q0 h0 ht hne n
  · intro s n
    rcases runMotion_frames s n with ⟨h1, h2, h3⟩
    exact ⟨h2, fun hpos => (h3 hpos).trans h2⟩

/-- Witness for the amended C6 at a unit start `(3/5, 0, 0, 4/5)`, identity
target and one render step (spherical branch throughout). -/
theorem orientation_smoothing_decay_witness :
    ((⟨3 / 5, 0, 0, 4 / 5⟩ : Quat).normSq = 1 ∧ (⟨0, 0, 0, 1⟩ : Quat).normSq = 1) ∧
    angDist (slerpIter ⟨0, 0, 0, 1⟩ ⟨3 / 5, 0, 0, 4 / 5⟩ 1) ⟨0, 0, 0, 1⟩ =
      angDist ⟨3 / 5, 0, 0, 4 / 5⟩ ⟨0, 0, 0, 1⟩ * 0.9 ^ 1 := by
  have h0 : (⟨3 / 5, 0, 0, 4 / 5⟩ : Quat).normSq = 1 := by norm_num [Quat.normSq]
  have ht : (⟨0, 0, 0, 1⟩ : Quat).normSq = 1 := by norm_num [Quat.normSq]
  have hd : Quat.dot (⟨3 / 5, 0, 0, 4 / 5⟩ : Quat) ⟨0, 0, 0, 1⟩ = 4 / 5 := by
    norm_num [Quat.dot]
  have hmb : ∀ k < 1, |Quat.dot (slerpIter ⟨0, 0, 0, 1⟩ ⟨3 / 5, 0, 0, 4 / 5⟩ k)
      ⟨0, 0, 0, 1⟩| < 1 ∧
      numberEpsilon < 1 - |Quat.dot (slerpIter ⟨0, 0, 0, 1⟩ ⟨3 / 5, 0, 0, 4 / 5⟩ k)
        ⟨0, 0, 0, 1⟩| * |Quat.dot (slerpIter ⟨0, 0, 0, 1⟩ ⟨3 / 5, 0, 0, 4 / 5⟩ k)
        ⟨0, 0, 0, 1⟩| := by
    intro k hk
    interval_cases k
    constructor
    · show |Quat.dot (⟨3 / 5, 0, 0, 4 / 5⟩ : Quat) ⟨0, 0, 0, 1⟩| < 1
      rw [hd, abs_of_pos (by norm_num : (0 : ℝ) < 4 / 5)]
      norm_num
    · show numberEpsilon < 1 - |Quat.dot (⟨3 / 5, 0, 0, 4 / 5⟩ : Quat) ⟨0, 0, 0, 1⟩| *
        |Quat.dot (⟨3 / 5, 0, 0, 4 / 5⟩ : Quat) ⟨0, 0, 0, 1⟩|
      rw [hd, abs_of_pos (by norm_num : (0 : ℝ) < 4 / 5)]
      norm_num [numberEpsilon]
  exact ⟨⟨h0, ht⟩, orientation_smoothing_decay.1 _ _ 1 h0 ht hmb⟩

/-- Counterexample to C6 as stated: a unit orientation within the epsilon
regime of the identity target.  One render step takes the linear fallback
branch of `slerp`, and the resulting angular distance is *not* `0.9` times
the starting distance: assuming equality forces, via
`cos(10·arccos d₁) = cos(9·arccos d₀)` and the closed Chebyshev forms, an
exact rational identity that fails. -/
theorem orientation_decay_epsilon_counterexample :
    (⟨536870912 / 72057594037927937, 0, 0,
        72057594037927935 / 72057594037927937⟩ : Quat).normSq = 1 ∧
    (⟨0, 0, 0, 1⟩ : Quat).normSq = 1 ∧
    (⟨536870912 / 72057594037927937, 0, 0,
        72057594037927935 / 72057594037927937⟩ : Quat) ≠ ⟨0, 0, 0, 1⟩ ∧
    angDist (slerpIter ⟨0, 0, 0, 1⟩
        ⟨536870912 / 72057594037927937, 0, 0, 72057594037927935 / 72057594037927937⟩ 1)
        ⟨0, 0, 0, 1⟩ ≠
      angDist ⟨536870912 / 72057594037927937, 0, 0,
        72057594037927935 / 72057594037927937⟩ ⟨0, 0, 0, 1⟩ * 0.9 ^ 1 := by
  refine ⟨by norm_num [Quat.normSq], by norm_num [Quat.normSq], ?_, ?_⟩
  · intro h
    have hx := congrArg Quat.x h
    norm_num at hx
  · have hd0 : Quat.dot (⟨536870912 / 72057594037927937, 0, 0,
        72057594037927935 / 72057594037927937⟩ : Quat) ⟨0, 0, 0, 1⟩ =
        72057594037927935 / 72057594037927937 := by
      norm_num [Quat.dot]
    show angDist (slerpQ ⟨536870912 / 72057594037927937, 0, 0,
        72057594037927935 / 72057594037927937⟩ ⟨0, 0, 0, 1⟩ 0.1) ⟨0, 0, 0, 1⟩ ≠ _
    have hred := slerpQ_lerp_pos
      (⟨536870912 / 72057594037927937, 0, 0,
        72057594037927935 / 72057594037927937⟩ : Quat) ⟨0, 0, 0, 1⟩
      (by rw [hd0]; norm_num) (by rw [hd0]; norm_num)
      (by rw [hd0]; norm_num [numberEpsilon])
    rw [hred]
    have hv : (⟨(1 - 0.1) * (⟨536870912 / 72057594037927937, 0, 0,
          72057594037927935 / 72057594037927937⟩ : Quat).x + 0.1 * (⟨0, 0, 0, 1⟩ : Quat).x,
        (1 - 0.1) * (⟨536870912 / 72057594037927937, 0, 0,
          72057594037927935 / 72057594037927937⟩ : Quat).y + 0.1 * (⟨0, 0, 0, 1⟩ : Quat).y,
        (1 - 0.1) * (⟨536870912 / 72057594037927937, 0, 0,
          72057594037927935 / 72057594037927937⟩ : Quat).z + 0.1 * (⟨0, 0, 0, 1⟩ : Quat).z,
        (1 - 0.1) * (⟨536870912 / 72057594037927937, 0, 0,
          72057594037927935 / 72057594037927937⟩ : Quat).w + 0.1 * (⟨0, 0, 0, 1⟩ : Quat).w⟩ :
        Quat) =
        ⟨2415919104 / 360287970189639685, 0, 0, 360287970189639676 / 360287970189639685⟩ := by
      simp only [Quat.mk.injEq]
      norm_num
    rw [hv]
    have hvpos : 0 < Quat.normSq
        ⟨2415919104 / 360287970189639685, 0, 0,
          360287970189639676 / 360287970189639685⟩ := by
      norm_num [Quat.normSq]
    unfold angDist
    rw [normalizeQ_dot _ _ hvpos]
    have hdv : Quat.dot (⟨2415919104 / 360287970189639685, 0, 0,
        360287970189639676 / 360287970189639685⟩ : Quat) ⟨0, 0, 0, 1⟩ =
        360287970189639676 / 360287970189639685 := by
      norm_num [Quat.dot]
    have hlen : (⟨2415919104 / 360287970189639685, 0, 0,
        360287970189639676 / 360287970189639685⟩ : Quat).length =
        Real.sqrt (1801439850948198416 / 1801439850948198425) := by
      unfold Quat.length
      rw [show Quat.normSq ⟨2415919104 / 360287970189639685, 0, 0,
        360287970189639676 / 360287970189639685⟩ =
        1801439850948198416 / 1801439850948198425 by norm_num [Quat.normSq]]
    rw [hdv, hlen, hd0]
    have hsqpos : 0 < Real.sqrt (1801439850948198416 / 1801439850948198425) :=
      Real.sqrt_pos.mpr (by norm_num)
    rw [abs_of_pos (by positivity :
        (0 : ℝ) < 1 / Real.sqrt (1801439850948198416 / 1801439850948198425) *
          (360287970189639676 / 360287970189639685)),
      abs_of_pos (by norm_num : (0 : ℝ) < 72057594037927935 / 72057594037927937)]
    intro hEq
    rw [pow_one,
      show (1 : ℝ) / Real.sqrt (1801439850948198416 / 1801439850948198425) *
        (360287970189639676 / 360287970189639685) =
        (360287970189639676 / 360287970189639685) /
          Real.sqrt (1801439850948198416 / 1801439850948198425) by ring] at hEq
    have hD1 : (360287970189639676 / 360287970189639685 : ℝ) /
        Real.sqrt (1801439850948198416 / 1801439850948198425) ≤ 1 := by
      rw [div_le_one hsqpos, ← Real.sqrt_sq (by norm_num :
        (0 : ℝ) ≤ 360287970189639676 / 360287970189639685)]
      exact Real.sqrt_le_sqrt (by norm_num)
    have hD0 : (0 : ℝ) ≤ (360287970189639676 / 360287970189639685 : ℝ) /
        Real.sqrt (1801439850948198416 / 1801439850948198425) := by positivity
    have hcosD : Real.cos (Real.arccos ((360287970189639676 / 360287970189639685 : ℝ) /
        Real.sqrt (1801439850948198416 / 1801439850948198425))) =
        (360287970189639676 / 360287970189639685 : ℝ) /
          Real.sqrt (1801439850948198416 / 1801439850948198425) :=
      Real.cos_arccos (by linarith) hD1
    have hcosC : Real.cos (Real.arccos
        ((72057594037927935 : ℝ) / 72057594037927937)) =
        (72057594037927935 : ℝ) / 72057594037927937 :=
      Real.cos_arccos (by norm_num) (by norm_num)
    have h10 : 10 * Real.arccos ((360287970189639676 / 360287970189639685 : ℝ) /
        Real.sqrt (1801439850948198416 / 1801439850948198425)) =
        9 * Real.arccos ((72057594037927935 : ℝ) / 72057594037927937) := by
      linarith [hEq]
    have happ := congrArg Real.cos h10
    rw [(cos_nine_ten _ _ hcosD).2, (cos_nine_ten _ _ hcosC).1] at happ
    have hD2 : ((360287970189639676 / 360287970189639685 : ℝ) /
        Real.sqrt (1801439850948198416 / 1801439850948198425)) ^ 2 =
        (360287970189639676 / 360287970189639685 : ℝ) ^ 2 /
          (1801439850948198416 / 1801439850948198425) := by
      rw [div_pow, Real.sq_sqrt (by norm_num :
        (0 : ℝ) ≤ 1801439850948198416 / 1801439850948198425)]
    rw [show ((360287970189639676 / 360287970189639685 : ℝ) /
          Real.sqrt (1801439850948198416 / 1801439850948198425)) ^ 10 =
        (((360287970189639676 / 360287970189639685 : ℝ) /
          Real.sqrt (1801439850948198416 / 1801439850948198425)) ^ 2) ^ 5 by ring,
      show ((360287970189639676 / 360287970189639685 : ℝ) /
          Real.sqrt (1801439850948198416 / 1801439850948198425)) ^ 8 =
        (((360287970189639676 / 360287970189639685 : ℝ) /
          Real.sqrt (1801439850948198416 / 1801439850948198425)) ^ 2) ^ 4 by ring,
      show ((360287970189639676 / 360287970189639685 : ℝ) /
          Real.sqrt (1801439850948198416 / 1801439850948198425)) ^ 6 =
        (((360287970189639676 / 360287970189639685 : ℝ) /
          Real.sqrt (1801439850948198416 / 1801439850948198425)) ^ 2) ^ 3 by ring,
      show ((360287970189639676 / 360287970189639685 : ℝ) /
          Real.sqrt (1801439850948198416 / 1801439850948198425)) ^ 4 =
        (((360287970189639676 / 360287970189639685 : ℝ) /
          Real.sqrt (1801439850948198416 / 1801439850948198425)) ^ 2) ^ 2 by ring,
      hD2] at happ
    norm_num at happ

end

end Fulldome
